import Mathlib

/-!
Verification of the furtrap crawler's core logic against its specification.

The Go sources are shallowly embedded as follows:

* `httpGet` embeds `HTTPClient.Get`: the retry loop over the single-request
  `HTTPClient.get`, which is abstracted as an oracle mapping the attempt
  index to the classified outcome of one underlying GET.
* `parseCookieLine` / `loadCookies` embed `HTTPClient.parseCookieLine` and
  the line loop of `HTTPClient.LoadCookies`.  The cookie jar is modelled as
  the list of (url, cookie) additions performed via `SetCookies`; the
  outcome of the external `net/url.Parse` on the URL built from each
  record is supplied as an oracle, so its failure exit (`invalid URL for
  cookie …`) is part of the control flow.
* `getWatchlist` embeds `GetWatchlist`: the page loop with its `seen` set,
  ordered `usernames` accumulator, new-username count, stop threshold and
  page ceiling.  A page oracle stands for `client.Get` plus the username
  regex extraction; the list of fetched page numbers is returned alongside
  the result so that "which pages were fetched" is provable.
* `crawlSubmissions` / `parseSubmissionsFromPage` embed the gallery loop of
  `Artist.crawlSubmissions`: a page oracle yields the submission ids parsed
  from each page, `archived` stands for `Submission.IsSaved` of each id.
* The filesystem inside one submission directory is an association list
  from file names (lists of characters) to byte contents; `fsApplyOp`
  gives the semantics of the primitive operations (`os.Create`,
  `File.Write`, `File.Sync`, `os.Rename`) that `WriteAndFsyncFile` and
  `Submission.saveSubmissionFiles` perform, and `saveFilesOps` is the exact
  operation sequence of `saveSubmissionFiles`.  An interruption is
  modelled as executing a prefix of that sequence (each completed
  operation is taken as durable; the fsync calls are what licenses this
  ordering-based model).
* `save` embeds `Submission.Save` with the two network results (view page
  via `GetWithDelay`, binary via `Get`) as parameters, returning the
  result, the new filesystem and the list of performed effects.
* `parseView` embeds `parseURLAndFilenameFromViewPage` at the goquery
  boundary: the page's anchor elements are given as (text, href) pairs.
* `cleanPath` embeds the path normalization of Go's `filepath.Clean`
  (component-stack form of the lazybuf algorithm) and `joinPath` embeds
  `filepath.Join` for two elements; strings are lists of characters.
-/

/-! ## Transport: HTTPClient.Get retry loop -/

/-- Classification of a failed single GET, mirroring the error values
`ErrHTTPNotFound` (404), `ErrHTTPStatusNotOK` (non-200) and transport
failures of `HTTPClient.get`. -/
inductive GetErr where
  | notFound
  | badStatus
  | transportFailure
deriving DecidableEq, Repr

/-- Outcome of one underlying GET attempt (`HTTPClient.get`). -/
abbrev GetOutcome := Except GetErr (List Nat)

/-- The retry loop body of `HTTPClient.Get`.  `remaining` counts loop
iterations left (Go: `for attempt := range h.tryCount`), `attempt` is the
current attempt index, `lastErr` the last error seen.  Returns the pair of
Go return values `(data, err)` together with the number of attempts that
were actually performed. -/
def httpGetLoop (oracle : Nat → GetOutcome) :
    Nat → Nat → Option GetErr → (Option (List Nat) × Option GetErr) × Nat
  | 0, attempt, last => ((none, last), attempt)
  | remaining + 1, attempt, _lastErr =>
    match oracle attempt with
    | .ok data => ((some data, none), attempt + 1)
    | .error e =>
      -- Go records lastErr, logs, sleeps h.retryInterval, and retries.
      httpGetLoop oracle remaining (attempt + 1) (some e)

/-- `HTTPClient.Get`: try up to `tryCount` attempts, return the final
error after exhaustion. -/
def httpGet (tryCount : Nat) (oracle : Nat → GetOutcome) :
    (Option (List Nat) × Option GetErr) × Nat :=
  httpGetLoop oracle tryCount 0 none

/-- The production retry count `defaultRetryCount`. -/
def defaultRetryCount : Nat := 3

/-! ## Cookie loading: parseCookieLine / LoadCookies -/

/-- Errors of `parseCookieLine`, each carrying what the Go error message
interpolates: `ErrInvalidCookie` carries the whole line, the expiration
errors carry the cookie name, and the `url.Parse` failure carries the
cookie name and the wrapped error text (`invalid URL for cookie %s: %w`). -/
inductive CookieErr where
  | invalidCookie (line : String)
  | invalidExpiration (name : String)
  | expiredCookie (name : String)
  | invalidURL (name : String) (msg : String)
deriving DecidableEq, Repr

/-- One addition to the cookie jar: the URL handed to `SetCookies` plus
the cookie's fields. -/
structure JarEntry where
  url : String
  name : String
  value : String
  domain : String
  path : String
deriving DecidableEq, Repr

/-- Equality on fallible results is decidable componentwise. -/
instance {e a : Type} [DecidableEq e] [DecidableEq a] : DecidableEq (Except e a)
  | .ok x, .ok y =>
    if h : x = y then .isTrue (by rw [h])
    else .isFalse (by intro hh; cases hh; exact h rfl)
  | .ok _, .error _ => .isFalse (by intro hh; cases hh)
  | .error _, .ok _ => .isFalse (by intro hh; cases hh)
  | .error x, .error y =>
    if h : x = y then .isTrue (by rw [h])
    else .isFalse (by intro hh; cases hh; exact h rfl)

/-- Decimal digit run to a number; `none` when empty or non-digit
(mirrors the syntax accepted by `strconv.ParseInt` base 10). -/
def digitsVal? (l : List Char) : Option Nat :=
  if l = [] ∨ ¬ l.all Char.isDigit then none
  else some (l.foldl (fun a c => a * 10 + (c.toNat - 48)) 0)

/-- `strconv.ParseInt(s, 10, 64)`: optional sign, decimal digits, and the
int64 range check. -/
def parseInt64? (s : String) : Option Int :=
  match s.data with
  | '+' :: rest =>
    match digitsVal? rest with
    | some n => if n ≤ 2 ^ 63 - 1 then some (Int.ofNat n) else none
    | none => none
  | '-' :: rest =>
    match digitsVal? rest with
    | some n => if n ≤ 2 ^ 63 then some (- Int.ofNat n) else none
    | none => none
  | l =>
    match digitsVal? l with
    | some n => if n ≤ 2 ^ 63 - 1 then some (Int.ofNat n) else none
    | none => none

/-- ASCII upper-casing of `strings.ToUpper` (the flag field only ever
holds ASCII `true`/`TRUE`). -/
def asciiToUpper (s : String) : String :=
  String.mk (s.data.map fun c =>
    if 'a' ≤ c ∧ c ≤ 'z' then Char.ofNat (c.toNat - 32) else c)

/-- One week in seconds (`oneWeekDuration = 7 * 24 * time.Hour`). -/
def oneWeekSeconds : Int := 7 * 24 * 60 * 60

/-- Split on tab characters, mirroring `strings.Split(line, "\t")`. -/
def splitOnChar (sep : Char) (l : List Char) : List (List Char) :=
  l.foldr
    (fun c acc =>
      if c = sep then [] :: acc
      else
        match acc with
        | [] => [[c]]
        | a :: as => (c :: a) :: as)
    [[]]

/-- `strings.Split` for strings. -/
def stringsSplit (sep : Char) (s : String) : List String :=
  (splitOnChar sep s.data).map String.mk

/-- `strings.HasPrefix(line, "#")`. -/
def startsWithHash (s : String) : Bool :=
  match s.data with
  | '#' :: _ => true
  | _ => false

/-- `HTTPClient.parseCookieLine`.  `now` is the current Unix time in
seconds (the Go code compares `time.Unix(expireTime, 0)` against
`time.Now().Add(oneWeekDuration)`); a returned `none` means the line was
skipped (comment or blank), `some entry` is the jar addition performed via
`SetCookies`.  `urlParse` is the outcome of the external `net/url.Parse`
on the URL the function builds — `some msg` when the library rejects it
(e.g. an invalid character in the host name), `none` when it parses —
supplied as an oracle like the other external collaborators; on failure
the Go function returns `invalid URL for cookie <name>: <err>`. -/
def parseCookieLine (urlParse : String → Option String) (now : Int)
    (line : String) : Except CookieErr (Option JarEntry) :=
  if line = "" ∨ startsWithHash line then .ok none
  else
    let parts := stringsSplit '\t' line
    if parts.length ≠ 7 then .error (.invalidCookie line)
    else
      let domain := parts.getD 0 ("")
      let path := parts.getD 2 ("")
      let secure := asciiToUpper (parts.getD 3 ("")) = "TRUE"
      let expiration := parts.getD 4 ("")
      let name := parts.getD 5 ("")
      let value := parts.getD 6 ("")
      match parseInt64? expiration with
      | none => .error (.invalidExpiration name)
      | some expireTime =>
        if expireTime < now + oneWeekSeconds then .error (.expiredCookie name)
        else
          let scheme := if secure then ("https") else ("http")
          match urlParse (scheme ++ "://" ++ domain ++ path) with
          | some msg => .error (.invalidURL name msg)
          | none =>
            .ok (some
              { url := scheme ++ "://" ++ domain ++ path
                name := name, value := value, domain := domain, path := path })

/-- ASCII whitespace trim of `strings.TrimSpace` as applied by
`LoadCookies` to each scanned line. -/
def trimSpace (s : String) : String :=
  String.mk ((s.data.dropWhile Char.isWhitespace).reverse.dropWhile
    Char.isWhitespace).reverse

/-- The line loop of `HTTPClient.LoadCookies`: each line is trimmed and
parsed; parsed cookies are appended to the client's jar as they are
encountered; the first parse error stops the loop and is returned, the
jar keeping every cookie added so far (the Go method mutates
`h.client.Jar` in place and performs no rollback). -/
def loadCookies (urlParse : String → Option String) (now : Int)
    (lines : List String) (jar : List JarEntry) :
    List JarEntry × Option CookieErr :=
  match lines with
  | [] => (jar, none)
  | l :: rest =>
    match parseCookieLine urlParse now (trimSpace l) with
    | .error e => (jar, some e)
    | .ok none => loadCookies urlParse now rest jar
    | .ok (some entry) => loadCookies urlParse now rest (jar ++ [entry])

/-! ## FollowListCrawler: GetWatchlist -/

/-- `maxWatchlistPages`. -/
def maxWatchlistPages : Nat := 100

/-- `minNewUsernamesThreshold`. -/
def minNewUsernamesThreshold : Nat := 2

/-- Outcome of a crawler: the returned value, a fetch error propagated to
the caller, or the `fatalInvariant` panic path (which returns nothing). -/
inductive CrawlResult (α : Type) where
  | ok (val : α)
  | fetchFail (e : GetErr)
  | fatal (msg : String)
deriving DecidableEq, Repr

/-- The per-page username loop of `GetWatchlist`: for each regex match,
skip it if already `seen`, otherwise mark it seen, append it to
`usernames` and bump `newUsernames`.  `seen` is the Go `map[string]bool`
modelled as the list of members. -/
def addNewUsernames :
    List String → List String → List String → Nat →
    List String × List String × Nat
  | [], seen, usernames, newCount => (seen, usernames, newCount)
  | u :: rest, seen, usernames, newCount =>
    if seen.contains u then addNewUsernames rest seen usernames newCount
    else addNewUsernames rest (u :: seen) (usernames ++ [u]) (newCount + 1)

/-- The page loop of `GetWatchlist`.  `pages` stands for `client.Get` of
page `pageNum` followed by `watchlistUserRegex.FindAllSubmatch`: it yields
the username occurrences on that page, or the error `Get` returned.
`fuel` only drives the recursion; it starts at `maxWatchlistPages + 1` so
that the source's `pageNum > maxWatchlistPages` check always fires first.
Returns the crawl outcome and the page numbers that were fetched. -/
def getWatchlistLoop (pages : Nat → Except GetErr (List String)) :
    Nat → Nat → List String → List String → List Nat →
    CrawlResult (List String) × List Nat
  | 0, _, _, _, fetched => (.fatal ("maximum watchlist pages exceeded"), fetched)
  | fuel + 1, pageNum, seen, usernames, fetched =>
    if pageNum > maxWatchlistPages then
      (.fatal ("maximum watchlist pages exceeded"), fetched)
    else
      match pages pageNum with
      | .error e => (.fetchFail e, fetched)
      | .ok found =>
        match addNewUsernames found seen usernames 0 with
        | (seen', usernames', newCount) =>
          if newCount < minNewUsernamesThreshold then
            (.ok usernames', fetched ++ [pageNum])
          else getWatchlistLoop pages fuel (pageNum + 1) seen' usernames'
            (fetched ++ [pageNum])

/-- `GetWatchlist`: crawl from page 1 with empty state. -/
def getWatchlist (pages : Nat → Except GetErr (List String)) :
    CrawlResult (List String) × List Nat :=
  getWatchlistLoop pages (maxWatchlistPages + 1) 1 [] [] []

/-- Modelled from the spec: "Deduplicate globally, preserving order" —
fold the page's ids into the accumulator, keeping first occurrences. -/
def specDedupAdd (acc : List String) (us : List String) : List String :=
  us.foldl (fun a u => if a.contains u then a else a ++ [u]) acc

/-- Modelled from the spec: the globally deduplicated ids of pages
`1..p`, in first-seen order. -/
def watchDedupUpTo (pl : Nat → List String) : Nat → List String
  | 0 => []
  | p + 1 => specDedupAdd (watchDedupUpTo pl p) (pl (p + 1))

/-- Modelled from the spec: how many new ids page `p` contributes, given
everything seen on pages `1..p-1`. -/
def watchNewAt (pl : Nat → List String) (p : Nat) : Nat :=
  (watchDedupUpTo pl p).length - (watchDedupUpTo pl (p - 1)).length

/-! ## GalleryCrawler: Artist.crawlSubmissions -/

/-- `maxGalleryPages`. -/
def maxGalleryPages : Nat := 1000

/-- The link loop of `Artist.parseSubmissionsFromPage`, at the boundary
where each selected `/view/` link has already had its numeric id parsed
(a non-numeric id would take the separate `fatalInvariant` path).
`archived` stands for `Submission.IsSaved` against the submission
directory.  Returns the submissions collected from this page and the
stop-crawling flag. -/
def parseSubmissionsFromPage
    (reCrawl : Bool) (archived : Nat → Bool) :
    List Nat → List Nat → List Nat × Bool
  | [], acc => (acc, false)
  | id :: rest, acc =>
    if !reCrawl && archived id then (acc, true)
    else parseSubmissionsFromPage reCrawl archived rest (acc ++ [id])

/-- The page loop of `Artist.crawlSubmissions`.  `pages` stands for
`client.GetWithDelay` of page `pageNum` followed by the link selection:
it yields the submission ids on that page in page order, or the fetch
error.  As in `getWatchlistLoop`, `fuel` starts high enough that the
source's `pageNum > maxGalleryPages` check always fires first. -/
def crawlSubmissionsLoop
    (pages : Nat → Except GetErr (List Nat))
    (reCrawl : Bool) (archived : Nat → Bool) :
    Nat → Nat → List Nat → List Nat → CrawlResult (List Nat) × List Nat
  | 0, _, _, fetched => (.fatal ("maximum gallery pages exceeded"), fetched)
  | fuel + 1, pageNum, subs, fetched =>
    if pageNum > maxGalleryPages then
      (.fatal ("maximum gallery pages exceeded"), fetched)
    else
      match pages pageNum with
      | .error e => (.fetchFail e, fetched)
      | .ok ids =>
        match parseSubmissionsFromPage reCrawl archived ids [] with
        | (pageSubs, stopCrawling) =>
          if pageSubs.length = 0 || stopCrawling then
            ((.ok (subs ++ pageSubs).reverse), fetched ++ [pageNum])
          else crawlSubmissionsLoop pages reCrawl archived fuel (pageNum + 1)
            (subs ++ pageSubs) (fetched ++ [pageNum])

/-- `Artist.crawlSubmissions`: crawl one section from page 1; the
accumulated ids are reversed before being returned. -/
def crawlSubmissions
    (pages : Nat → Except GetErr (List Nat))
    (reCrawl : Bool) (archived : Nat → Bool) :
    CrawlResult (List Nat) × List Nat :=
  crawlSubmissionsLoop pages reCrawl archived (maxGalleryPages + 1) 1 [] []

/-! ## Filesystem inside one submission directory -/

/-- A file name (Go string), as its character list. -/
abbrev FName := List Char

/-- Contents of the submission directory: file name to byte content. -/
abbrev FileSys := List (FName × List Nat)

/-- Create or truncate-and-overwrite a file. -/
def fsSet (fs : FileSys) (n : FName) (d : List Nat) : FileSys :=
  match fs with
  | [] => [(n, d)]
  | (m, c) :: rest =>
    if m = n then (m, d) :: rest else (m, c) :: fsSet rest n d

/-- Look up a file's content. -/
def fsGet (fs : FileSys) (n : FName) : Option (List Nat) :=
  match fs with
  | [] => none
  | (m, c) :: rest => if m = n then some c else fsGet rest n

/-- Remove a file. -/
def fsDel (fs : FileSys) (n : FName) : FileSys :=
  match fs with
  | [] => []
  | (m, c) :: rest => if m = n then fsDel rest n else (m, c) :: fsDel rest n

/-- The primitive filesystem operations performed by `WriteAndFsyncFile`
(`os.Create`, `File.Write`, `File.Sync`) and `os.Rename`. -/
inductive FsOp where
  | create (n : FName)
  | write (n : FName) (d : List Nat)
  | fsync (n : FName)
  | rename (src : FName) (dst : FName)
deriving DecidableEq, Repr

/-- Effect of one operation on the directory.  `create` truncates,
`write` fills in the content, `fsync` changes no content (its role —
ordering the durability of the operations — is captured by treating each
completed operation as durable), `rename` atomically replaces the
destination. -/
def fsApplyOp (fs : FileSys) : FsOp → FileSys
  | .create n => fsSet fs n []
  | .write n d => fsSet fs n d
  | .fsync _ => fs
  | .rename src dst =>
    match fsGet fs src with
    | some d => fsSet (fsDel fs src) dst d
    | none => fs

/-- Run a sequence of operations. -/
def runFsOps (fs : FileSys) (ops : List FsOp) : FileSys :=
  ops.foldl fsApplyOp fs

/-- The suffix `.<id>.html` that the `IsSaved` glob `*.<id>.html` keys
on. -/
def markerSuffix (id : Nat) : FName :=
  '.' :: (Nat.repr id).data ++ ".html".data

/-- `Submission.IsSaved`: true iff some file directly in the submission
directory matches the glob `*.<id>.html`, i.e. its name ends with
`.<id>.html` (file names hold no path separator, so `*` covers any
prefix). -/
def isArchived (fs : FileSys) (id : Nat) : Bool :=
  fs.any fun p => (markerSuffix id).isSuffixOf p.1

/-- The final metadata name `<filename>.<id>.html` built by
`saveSubmissionFiles`. -/
def htmlName (filename : FName) (id : Nat) : FName :=
  filename ++ markerSuffix id

/-- The temporary sibling `<filename>.<id>.html.tmp`. -/
def tmpName (filename : FName) (id : Nat) : FName :=
  htmlName filename id ++ ".tmp".data

/-- The exact operation sequence of `Submission.saveSubmissionFiles`:
write and fsync the binary, write and fsync the metadata page to the
temporary sibling, atomically rename it to the final name. -/
def saveFilesOps (filename : FName) (id : Nat)
    (fileContent pageContent : List Nat) : List FsOp :=
  [ .create filename,
    .write filename fileContent,
    .fsync filename,
    .create (tmpName filename id),
    .write (tmpName filename id) pageContent,
    .fsync (tmpName filename id),
    .rename (tmpName filename id) (htmlName filename id) ]

/-! ## parseURLAndFilenameFromViewPage -/

/-- One anchor element of the view page, at the goquery boundary:
its visible text and its `href` attribute if present. -/
structure ALink where
  text : FName
  href : Option FName
deriving DecidableEq, Repr

/-- A fetched view page: its raw bytes (written as the metadata file)
and its anchor elements. -/
structure ViewPage where
  raw : List Nat
  links : List ALink
deriving DecidableEq, Repr

/-- Errors of `parseURLAndFilenameFromViewPage`
(`ErrSubmissionImageNotFound`, `ErrUnexpectedLinkFormat`). -/
inductive ParseErr where
  | submissionImageNotFound
  | unexpectedLinkFormat (href : FName)
deriving DecidableEq, Repr

/-- `strings.TrimSpace` on a character list. -/
def trimChars (l : FName) : FName :=
  ((l.dropWhile Char.isWhitespace).reverse.dropWhile Char.isWhitespace).reverse

/-- The link loop: the first anchor whose trimmed text is exactly
`Download` and which has an `href` attribute (an anchor with matching
text but no `href` is passed over, as in the Go `EachWithBreak` body). -/
def findDownloadHref : List ALink → Option FName
  | [] => none
  | l :: rest =>
    if trimChars l.text = "Download".data then
      match l.href with
      | some h => some h
      | none => findDownloadHref rest
    else findDownloadHref rest

/-- The Windows-unsafe characters replaced by `_`. -/
def sanitizeFilename (l : FName) : FName :=
  l.map fun c =>
    if c = '<' ∨ c = '>' ∨ c = ':' ∨ c = '"' ∨ c = '\\' ∨ c = '|' ∨
        c = '?' ∨ c = '*' then '_' else c

/-- `parseURLAndFilenameFromViewPage`: find the Download link, require a
schema-relative `//`-prefixed href, resolve it against `https:`, and take
the final `/`-segment of the resolved URL (sanitized) as the filename. -/
def parseView (links : List ALink) : Except ParseErr (FName × FName) :=
  match findDownloadHref links with
  | none => .error .submissionImageNotFound
  | some href =>
    if ('/' :: '/' :: []).isPrefixOf href then
      let downloadURL := "https:".data ++ href
      let urlParts := splitOnChar '/' downloadURL
      let filename := urlParts.getLastD []
      .ok (downloadURL, sanitizeFilename filename)
    else .error (.unexpectedLinkFormat href)

/-! ## Submission.Save -/

/-- Errors `GetWithDelay` can return: a `Get` error, or
`ErrRegisteredUsersNotFound` when the activity figure cannot be
located in the fetched page. -/
inductive DelayErr where
  | get (e : GetErr)
  | usersNotFound
deriving DecidableEq, Repr

/-- Errors of `Submission.Save`. -/
inductive SaveErr where
  | fetchPage (e : DelayErr)
  | parse (e : ParseErr)
  | download (e : GetErr)
deriving DecidableEq, Repr

/-- Observable effects of one `Save` call: the recursive directory
creation, the delayed GET of the view page, the plain GET of the binary,
and each filesystem operation. -/
inductive Effect where
  | mkdir
  | getWithDelay
  | get
  | fsOp (op : FsOp)
deriving DecidableEq, Repr

/-- `Submission.Save`.  `viewFetch` is the outcome of
`client.GetWithDelay` on the `/view/<id>` page and `fileFetch` the
outcome of the plain `client.Get` of the resolved download URL.  Returns
the Go result, the directory contents afterwards, and the effects
performed, in order.  (The `filepath.Clean` guard of `WriteAndFsyncFile`
is treated at the path level separately; within the directory model the
write primitives succeed.) -/
def save (id : Nat) (fs : FileSys)
    (viewFetch : Except DelayErr ViewPage)
    (fileFetch : Except GetErr (List Nat)) :
    Except SaveErr Unit × FileSys × List Effect :=
  if isArchived fs id then (.ok (), fs, [])
  else
    match viewFetch with
    | .error e => (.error (.fetchPage e), fs, [.mkdir, .getWithDelay])
    | .ok page =>
      match parseView page.links with
      | .error pe => (.error (.parse pe), fs, [.mkdir, .getWithDelay])
      | .ok (_, filename) =>
        match fileFetch with
        | .error .notFound =>
          -- "File download 404s, skipping submission": logged, success,
          -- nothing written.
          (.ok (), fs, [.mkdir, .getWithDelay, .get])
        | .error e =>
          (.error (.download e), fs, [.mkdir, .getWithDelay, .get])
        | .ok fileContent =>
          let ops := saveFilesOps filename id fileContent page.raw
          (.ok (), runFsOps fs ops,
            [.mkdir, .getWithDelay, .get] ++ ops.map .fsOp)

/-- The per-artist save loop of `Scraper.Run`: save each submission in
order, aborting at the first error. -/
def saveAll :
    List (Nat × Except DelayErr ViewPage × Except GetErr (List Nat)) →
    FileSys → Except SaveErr FileSys
  | [], fs => .ok fs
  | (id, vf, ff) :: rest, fs =>
    match save id fs vf ff with
    | (.ok _, fs', _) => saveAll rest fs'
    | (.error e, _, _) => .error e

/-! ## filepath.Clean and filepath.Join -/

/-- One step of `filepath.Clean`'s element processing, in the standard
component-stack form: empty and `.` elements are dropped, `..` pops a
poppable stack entry (or is kept when the path is relative and nothing
can be popped; at the root it is dropped), any other element is pushed. -/
def cleanStep (abs : Bool) (stack : List FName) (c : FName) : List FName :=
  if c = [] ∨ c = ['.'] then stack
  else if c = ['.', '.'] then
    match stack with
    | top :: rest => if top = ['.', '.'] then c :: stack else rest
    | [] => if abs then [] else [c]
  else c :: stack

/-- Process all components, returning the stack (reversed output). -/
def cleanStack (abs : Bool) (comps : List FName) : List FName :=
  comps.foldl (cleanStep abs) []

/-- Join components with `/`. -/
def joinComps : List FName → FName
  | [] => []
  | [c] => c
  | c :: rest => c ++ '/' :: joinComps rest

/-- Whether the path is rooted. -/
def isAbsPath (p : FName) : Bool :=
  match p with
  | c :: _ => c = '/'
  | [] => false

/-- `filepath.Clean` (unix): split on `/`, normalize the components,
rejoin; the empty result becomes `.`. -/
def cleanPath (p : FName) : FName :=
  let abs := isAbsPath p
  let comps := (cleanStack abs (splitOnChar '/' p)).reverse
  let out := (if abs then ['/'] else []) ++ joinComps comps
  if out = [] then ['.'] else out

/-- `filepath.Join` of two elements: empty elements are skipped and the
`/`-joined rest is cleaned. -/
def joinPath (a b : FName) : FName :=
  if a = [] then (if b = [] then [] else cleanPath b)
  else if b = [] then cleanPath a
  else cleanPath (a ++ '/' :: b)

/-- The traversal guard of `WriteAndFsyncFile`: the target path must
already be in canonical form. -/
def writePathOk (p : FName) : Bool :=
  p = cleanPath p

/-- Whether `p` is a path directly inside directory `dir`: it extends
`dir` by a single nonempty separator-free component. -/
def isDirectlyInside (dir p : FName) : Bool :=
  (dir ++ ['/']).isPrefixOf p &&
    !(p.drop (dir.length + 1)).isEmpty &&
    !(p.drop (dir.length + 1)).contains '/'

/-! ## Concrete inputs used by counterexamples and witnesses -/

/-- An underlying GET that 404s on every attempt. -/
def c1Oracle : Nat → GetOutcome := fun _ => .error .notFound

/-- The gallery pages `[103,104]`, `[55555]`, `[]`. -/
def c3Pages : Nat → Except GetErr (List Nat) := fun p =>
  if p = 1 then .ok [103, 104] else if p = 2 then .ok [55555] else .ok []

/-- Artifact 104 is already archived. -/
def c3Archived : Nat → Bool := fun id => id == 104

/-- Pairwise-distinct usernames (distinguished by length). -/
def growName (n : Nat) : String := String.mk (List.replicate n 'a')

/-- Watchlist pages that contribute two fresh usernames forever. -/
def growWatchPages (p : Nat) : List String :=
  [growName (2 * p - 1), growName (2 * p)]

/-- Gallery pages that contribute one fresh submission id forever. -/
def growGalleryIds (p : Nat) : List Nat := [100000 + p]

/-- Watchlist pages adding two new ids through page 4; page 5 onwards
repeats page 4's entries. -/
def dropWatchPages (p : Nat) : List String :=
  if p ≤ 4 then [growName (2 * p - 1), growName (2 * p)]
  else [growName 7, growName 8]

/-- A far-future secure cookie record. -/
def c8GoodLine : String :=
  ".furaffinity.net\tTRUE\t/\tTRUE\t4070937600\ttest_cookie\ttest_value"

/-- A far-future non-secure cookie record. -/
def c10SecondLine : String :=
  ".furaffinity.net\tTRUE\t/path\tFALSE\t4070937600\tanother_cookie\tanother_value"

/-- A record expiring about one day after the reference time
1760000000, i.e. well inside the one-week window. -/
def c8ExpiringLine : String :=
  ".furaffinity.net\tTRUE\t/\tTRUE\t1760100000\texpiring_cookie\texpiring_value"

/-- A line with the wrong number of tab-separated fields. -/
def c8BadCountLine : String := "not a cookie line"

/-- A record whose expiry field is not an integer. -/
def c8BadExpiryLine : String :=
  ".furaffinity.net\tTRUE\t/\tTRUE\tnotanumber\tnan_cookie\tv"

/-- The usual cookies.txt header comment. -/
def c8CommentLine : String := "# Netscape HTTP Cookie File"

/-- A far-future record whose domain contains a space; `net/url` rejects
the URL built from it with an `InvalidHostError`. -/
def c8SpaceHostLine : String :=
  "bad host.com\tTRUE\t/\tTRUE\t4070937600\tspace_cookie\tspace_value"

/-- The `url.Parse` outcome for the witness records with well-formed
hosts: `net/url` accepts every URL they build. -/
def c8UrlAccept : String → Option String := fun _ => none

/-- The `url.Parse` outcome for the space-in-host witness record:
`net/url` rejects its URL. -/
def c8UrlReject : String → Option String :=
  fun _ => some ("invalid character in host name")

/-- A view page whose Download link resolves to an ordinary image file. -/
def c4ViewPage : ViewPage :=
  { raw := [7, 8]
    links := [⟨"Download".data, some ("//d.example.net/pic.jpg".data)⟩] }

/-- A view page whose Download link's final URL segment itself matches
the archive-marker glob `*.104.html`. -/
def c2Links : List ALink :=
  [⟨"Download".data, some ("//d.example.net/x.104.html".data)⟩]

/-- A view page whose Download link's final URL segment is `..`. -/
def c9Links : List ALink :=
  [⟨"Download".data, some ("//h/..".data)⟩]

/-- A submission directory path. -/
def c9Dir : FName := "out/a".data

/-! ## Dedup bookkeeping lemmas for GetWatchlist -/

theorem specDedupAdd_cons (acc : List String) (u : String) (us : List String) :
    specDedupAdd acc (u :: us) =
      specDedupAdd (if acc.contains u then acc else acc ++ [u]) us := rfl

theorem contains_eq_decide_mem (l : List String) (x : String) :
    l.contains x = decide (x ∈ l) := by
  simp

theorem mem_specDedupAdd (x : String) :
    ∀ us acc, x ∈ specDedupAdd acc us ↔ x ∈ acc ∨ x ∈ us := by
  intro us
  induction us with
  | nil => intro acc; simp [specDedupAdd]
  | cons u rest ih =>
    intro acc
    rw [specDedupAdd_cons, contains_eq_decide_mem]
    by_cases hu : u ∈ acc
    · simp only [hu, ih, List.mem_cons, decide_True, if_true]
      constructor
      · rintro (h | h)
        · exact Or.inl h
        · exact Or.inr (Or.inr h)
      · rintro (h | rfl | h)
        · exact Or.inl h
        · exact Or.inl hu
        · exact Or.inr h
    · simp only [hu, decide_False, Bool.false_eq_true, if_false, ih,
        List.mem_append, List.mem_singleton, List.mem_cons]
      tauto

theorem length_le_specDedupAdd :
    ∀ us acc : List String, acc.length ≤ (specDedupAdd acc us).length := by
  intro us
  induction us with
  | nil => intro acc; simp [specDedupAdd]
  | cons u rest ih =>
    intro acc
    rw [specDedupAdd_cons]
    by_cases hu : acc.contains u
    · rw [if_pos hu]; exact ih acc
    · rw [if_neg hu]
      calc acc.length ≤ (acc ++ [u]).length := by simp
        _ ≤ _ := ih (acc ++ [u])

theorem length_specDedupAdd_fresh :
    ∀ us acc : List String, us.Nodup → (∀ u ∈ us, u ∉ acc) →
      (specDedupAdd acc us).length = acc.length + us.length := by
  intro us
  induction us with
  | nil => intro acc _ _; simp [specDedupAdd]
  | cons u rest ih =>
    intro acc hnd hfr
    rw [specDedupAdd_cons, contains_eq_decide_mem]
    have hu : u ∉ acc := hfr u (List.mem_cons_self u rest)
    simp only [hu, decide_False, Bool.false_eq_true, if_false]
    rw [ih (acc ++ [u]) (List.nodup_cons.1 hnd).2]
    · simp; omega
    · intro v hv
      simp only [List.mem_append, List.mem_singleton]
      rintro (h | rfl)
      · exact hfr v (List.mem_cons_of_mem _ hv) h
      · exact (List.nodup_cons.1 hnd).1 hv

theorem mem_watchDedupUpTo (pl : Nat → List String) (x : String) :
    ∀ p, x ∈ watchDedupUpTo pl p → ∃ q, 1 ≤ q ∧ q ≤ p ∧ x ∈ pl q := by
  intro p
  induction p with
  | zero => intro h; simp [watchDedupUpTo] at h
  | succ n ih =>
    intro h
    rw [watchDedupUpTo] at h
    rcases (mem_specDedupAdd x _ _).1 h with h | h
    · obtain ⟨q, hq1, hq2, hq3⟩ := ih h
      exact ⟨q, hq1, by omega, hq3⟩
    · exact ⟨n + 1, by omega, le_refl _, h⟩

theorem watchDedupUpTo_eq_of_pos (pl : Nat → List String) (p : Nat)
    (h : 1 ≤ p) :
    watchDedupUpTo pl p = specDedupAdd (watchDedupUpTo pl (p - 1)) (pl p) := by
  obtain ⟨p', rfl⟩ : ∃ p', p = p' + 1 := ⟨p - 1, by omega⟩
  simp [watchDedupUpTo]

theorem watchNewAt_of_fresh (pl : Nat → List String) (p : Nat)
    (h1 : 1 ≤ p) (hnd : (pl p).Nodup)
    (hfr : ∀ u ∈ pl p, ∀ q, 1 ≤ q → q < p → u ∉ pl q) :
    watchNewAt pl p = (pl p).length := by
  unfold watchNewAt
  rw [watchDedupUpTo_eq_of_pos pl p h1,
    length_specDedupAdd_fresh (pl p) _ hnd]
  · omega
  · intro u hu hmem
    obtain ⟨q, hq1, hq2, hq3⟩ := mem_watchDedupUpTo pl u _ hmem
    exact hfr u hu q hq1 (by omega) hq3

theorem addNewUsernames_spec :
    ∀ us seen acc : List String, ∀ n : Nat,
      (∀ u : String, u ∈ seen ↔ u ∈ acc) →
      (addNewUsernames us seen acc n).2.1 = specDedupAdd acc us ∧
      (addNewUsernames us seen acc n).2.2 =
        n + ((specDedupAdd acc us).length - acc.length) ∧
      (∀ u : String, u ∈ (addNewUsernames us seen acc n).1 ↔
        u ∈ specDedupAdd acc us) := by
  intro us
  induction us with
  | nil =>
    intro seen acc n h
    refine ⟨rfl, by simp [specDedupAdd, addNewUsernames], ?_⟩
    intro u
    simpa [addNewUsernames, specDedupAdd] using h u
  | cons u rest ih =>
    intro seen acc n h
    have hc : seen.contains u = decide (u ∈ acc) := by
      rw [contains_eq_decide_mem]
      simp [h u]
    by_cases hu : u ∈ acc
    · have hbranch :
          addNewUsernames (u :: rest) seen acc n =
            addNewUsernames rest seen acc n := by
        rw [addNewUsernames, hc]
        simp [hu]
      have hspec : specDedupAdd acc (u :: rest) = specDedupAdd acc rest := by
        rw [specDedupAdd_cons, contains_eq_decide_mem]
        simp [hu]
      rw [hbranch, hspec]
      exact ih seen acc n h
    · have hbranch :
          addNewUsernames (u :: rest) seen acc n =
            addNewUsernames rest (u :: seen) (acc ++ [u]) (n + 1) := by
        rw [addNewUsernames, hc]
        simp [hu]
      have hspec :
          specDedupAdd acc (u :: rest) = specDedupAdd (acc ++ [u]) rest := by
        rw [specDedupAdd_cons, contains_eq_decide_mem]
        simp [hu]
      have hinv : ∀ v : String, v ∈ u :: seen ↔ v ∈ acc ++ [u] := by
        intro v
        simp only [List.mem_cons, List.mem_append, List.mem_singleton, h v]
        tauto
      obtain ⟨ha, hn, hs⟩ := ih (u :: seen) (acc ++ [u]) (n + 1) hinv
      rw [hbranch, hspec]
      refine ⟨ha, ?_, hs⟩
      rw [hn]
      have hle := length_le_specDedupAdd rest (acc ++ [u])
      simp only [List.length_append, List.length_singleton] at hle ⊢
      omega

/-! ## Loop characterizations for GetWatchlist -/

theorem getWatchlistLoop_fatal (pl : Nat → List String) :
    ∀ fuel pageNum : Nat, ∀ seen acc : List String, ∀ fetched : List Nat,
      pageNum + fuel = maxWatchlistPages + 2 →
      1 ≤ pageNum →
      acc = watchDedupUpTo pl (pageNum - 1) →
      (∀ u : String, u ∈ seen ↔ u ∈ acc) →
      (∀ p, pageNum ≤ p → p ≤ maxWatchlistPages →
        minNewUsernamesThreshold ≤ watchNewAt pl p) →
      getWatchlistLoop (fun p => .ok (pl p)) fuel pageNum seen acc fetched =
        (.fatal ("maximum watchlist pages exceeded"),
          fetched ++ List.range' pageNum (maxWatchlistPages + 1 - pageNum)) := by
  intro fuel
  induction fuel with
  | zero =>
    intro pageNum seen acc fetched hsum h1 hacc hseen hgrow
    have hp : pageNum = maxWatchlistPages + 2 := by omega
    rw [getWatchlistLoop]
    have : maxWatchlistPages + 1 - pageNum = 0 := by omega
    rw [this]
    simp
  | succ f ih =>
    intro pageNum seen acc fetched hsum h1 hacc hseen hgrow
    rw [getWatchlistLoop]
    by_cases hce : pageNum > maxWatchlistPages
    · have hp : pageNum = maxWatchlistPages + 1 := by omega
      rw [if_pos hce]
      have : maxWatchlistPages + 1 - pageNum = 0 := by omega
      rw [this]
      simp
    · rw [if_neg hce]
      have hle : pageNum ≤ maxWatchlistPages := by omega
      obtain ⟨ha', hn', hs'⟩ :=
        addNewUsernames_spec (pl pageNum) seen acc 0 hseen
      rcases haddEq : addNewUsernames (pl pageNum) seen acc 0 with ⟨s', a', c⟩
      rw [haddEq] at ha' hn' hs'
      simp only at ha' hn' hs'
      have hup : specDedupAdd acc (pl pageNum) = watchDedupUpTo pl pageNum := by
        rw [hacc, ← watchDedupUpTo_eq_of_pos pl pageNum h1]
      have hcnt : c = watchNewAt pl pageNum := by
        rw [hn', hup, watchNewAt, hacc]
        omega
      have hstop : ¬ (c < minNewUsernamesThreshold) := by
        rw [hcnt]
        exact not_lt.2 (hgrow pageNum (le_refl _) hle)
      simp only [haddEq, hstop, if_neg, if_false]
      rw [ih (pageNum + 1) s' a' (fetched ++ [pageNum]) (by omega) (by omega)
        (by rw [ha', hup, Nat.add_sub_cancel])
        (by intro u; rw [hs', ha'])
        (by intro p hp1 hp2; exact hgrow p (by omega) hp2)]
      rw [List.append_assoc]
      congr 1
      have hrange : maxWatchlistPages + 1 - pageNum =
          (maxWatchlistPages + 1 - (pageNum + 1)) + 1 := by omega
      rw [hrange, List.range'_succ]
      rfl

theorem getWatchlistLoop_stops (pl : Nat → List String) (k : Nat)
    (hk : k ≤ maxWatchlistPages)
    (hdrop : watchNewAt pl k < minNewUsernamesThreshold) :
    ∀ fuel pageNum : Nat, ∀ seen acc : List String, ∀ fetched : List Nat,
      pageNum + fuel = maxWatchlistPages + 2 →
      1 ≤ pageNum → pageNum ≤ k →
      acc = watchDedupUpTo pl (pageNum - 1) →
      (∀ u : String, u ∈ seen ↔ u ∈ acc) →
      (∀ p, pageNum ≤ p → p < k → minNewUsernamesThreshold ≤ watchNewAt pl p) →
      getWatchlistLoop (fun p => .ok (pl p)) fuel pageNum seen acc fetched =
        (.ok (watchDedupUpTo pl k),
          fetched ++ List.range' pageNum (k + 1 - pageNum)) := by
  intro fuel
  induction fuel with
  | zero =>
    intro pageNum seen acc fetched hsum h1 hpk hacc hseen hgrow
    omega
  | succ f ih =>
    intro pageNum seen acc fetched hsum h1 hpk hacc hseen hgrow
    rw [getWatchlistLoop]
    have hce : ¬ (pageNum > maxWatchlistPages) := by omega
    rw [if_neg hce]
    obtain ⟨ha', hn', hs'⟩ :=
      addNewUsernames_spec (pl pageNum) seen acc 0 hseen
    rcases haddEq : addNewUsernames (pl pageNum) seen acc 0 with ⟨s', a', c⟩
    rw [haddEq] at ha' hn' hs'
    simp only at ha' hn' hs'
    have hup : specDedupAdd acc (pl pageNum) = watchDedupUpTo pl pageNum := by
      rw [hacc, ← watchDedupUpTo_eq_of_pos pl pageNum h1]
    have hcnt : c = watchNewAt pl pageNum := by
      rw [hn', hup, watchNewAt, hacc]
      omega
    by_cases hatk : pageNum = k
    · have hstop : c < minNewUsernamesThreshold := by
        rw [hcnt, hatk]
        exact hdrop
      simp only [haddEq, hstop, if_pos, if_true]
      have : k + 1 - pageNum = 1 := by omega
      rw [this, ha', hup, hatk, List.range'_one]
    · have hstop : ¬ (c < minNewUsernamesThreshold) := by
        rw [hcnt]
        exact not_lt.2 (hgrow pageNum (le_refl _) (by omega))
      simp only [haddEq, hstop, if_neg, if_false]
      rw [ih (pageNum + 1) s' a' (fetched ++ [pageNum]) (by omega) (by omega)
        (by omega)
        (by rw [ha', hup, Nat.add_sub_cancel])
        (by intro u; rw [hs', ha'])
        (by intro p hp1 hp2; exact hgrow p (by omega) hp2)]
      rw [List.append_assoc]
      congr 1
      have hrange : k + 1 - pageNum = (k + 1 - (pageNum + 1)) + 1 := by omega
      rw [hrange, List.range'_succ]
      rfl

/-! ## Loop characterizations for crawlSubmissions -/

theorem parseSubmissionsFromPage_all (reCrawl : Bool) (archived : Nat → Bool) :
    ∀ ids acc : List Nat,
      (∀ id ∈ ids, reCrawl = true ∨ archived id = false) →
      parseSubmissionsFromPage reCrawl archived ids acc = (acc ++ ids, false) := by
  intro ids
  induction ids with
  | nil => intro acc _; simp [parseSubmissionsFromPage]
  | cons id rest ih =>
    intro acc h
    rw [parseSubmissionsFromPage]
    have hcond : (!reCrawl && archived id) = false := by
      rcases h id (List.mem_cons_self id rest) with h1 | h1
      · rw [h1]; rfl
      · rw [h1]; simp
    rw [hcond]
    simp only [Bool.false_eq_true, if_false]
    rw [ih (acc ++ [id]) (fun v hv => h v (List.mem_cons_of_mem _ hv))]
    simp

theorem crawlSubmissionsLoop_fatal
    (pages : Nat → Except GetErr (List Nat)) (gids : Nat → List Nat)
    (reCrawl : Bool) (archived : Nat → Bool)
    (hpages : ∀ p, 1 ≤ p → p ≤ maxGalleryPages →
      pages p = .ok (gids p) ∧ gids p ≠ [] ∧
      (∀ id ∈ gids p, reCrawl = true ∨ archived id = false)) :
    ∀ fuel pageNum : Nat, ∀ subs : List Nat, ∀ fetched : List Nat,
      pageNum + fuel = maxGalleryPages + 2 →
      1 ≤ pageNum →
      crawlSubmissionsLoop pages reCrawl archived fuel pageNum subs fetched =
        (.fatal ("maximum gallery pages exceeded"),
          fetched ++ List.range' pageNum (maxGalleryPages + 1 - pageNum)) := by
  intro fuel
  induction fuel with
  | zero =>
    intro pageNum subs fetched hsum h1
    rw [crawlSubmissionsLoop]
    have : maxGalleryPages + 1 - pageNum = 0 := by omega
    rw [this]
    simp
  | succ f ih =>
    intro pageNum subs fetched hsum h1
    rw [crawlSubmissionsLoop]
    by_cases hce : pageNum > maxGalleryPages
    · rw [if_pos hce]
      have : maxGalleryPages + 1 - pageNum = 0 := by omega
      rw [this]
      simp
    · rw [if_neg hce]
      obtain ⟨hok, hne, hfree⟩ := hpages pageNum h1 (by omega)
      simp only [hok]
      rw [parseSubmissionsFromPage_all reCrawl archived (gids pageNum) [] hfree]
      have hlen : ((gids pageNum).length = 0) = False :=
        eq_false (by simpa using hne)
      simp only [List.nil_append, hlen, decide_False, Bool.or_false,
        Bool.false_eq_true, if_false]
      rw [ih (pageNum + 1) (subs ++ gids pageNum) (fetched ++ [pageNum])
        (by omega) (by omega)]
      rw [List.append_assoc]
      congr 1
      have hrange : maxGalleryPages + 1 - pageNum =
          (maxGalleryPages + 1 - (pageNum + 1)) + 1 := by omega
      rw [hrange, List.range'_succ]
      rfl

/-! ## Growth facts about the unbounded-page inputs -/

theorem growName_inj {a b : Nat} (h : growName a = growName b) : a = b := by
  have hlen := congrArg (fun s => s.data.length) h
  simpa [growName] using hlen

theorem growWatchPages_newAt (p : Nat) (h1 : 1 ≤ p) :
    watchNewAt growWatchPages p = 2 := by
  rw [watchNewAt_of_fresh growWatchPages p h1]
  · rfl
  · simp only [growWatchPages, List.nodup_cons, List.mem_singleton,
      List.not_mem_nil, not_false_iff, and_true, List.nodup_nil]
    intro h
    have := growName_inj h
    omega
  · intro u hu q hq1 hq2 hmem
    simp only [growWatchPages, List.mem_cons, List.mem_singleton,
      List.not_mem_nil, or_false] at hu hmem
    rcases hu with rfl | rfl <;> rcases hmem with h | h <;>
      · have := growName_inj h
        omega

/-! ## C1: transport retry behavior on notFound -/

theorem httpGetLoop_all_fail (oracle : Nat → GetOutcome) (errs : Nat → GetErr) :
    ∀ remaining attempt : Nat, ∀ last : Option GetErr,
      1 ≤ remaining →
      (∀ k, attempt ≤ k → k < attempt + remaining →
        oracle k = .error (errs k)) →
      httpGetLoop oracle remaining attempt last =
        ((none, some (errs (attempt + remaining - 1))), attempt + remaining) := by
  intro remaining
  induction remaining with
  | zero => intro attempt last h; omega
  | succ n ih =>
    intro attempt last _ h
    rw [httpGetLoop]
    simp only [h attempt (le_refl _) (by omega)]
    cases n with
    | zero => rfl
    | succ m =>
      rw [ih (attempt + 1) (some (errs attempt)) (by omega)
        (fun k hk1 hk2 => h k (by omega) (by omega))]
      have e1 : attempt + 1 + (m + 1) = attempt + (m + 1 + 1) := by omega
      rw [e1]

/-- C1 counterexample: an underlying GET classified notFound on every
attempt.  The claim predicts `Get` returns the 404 immediately after one
attempt; the retry loop actually performs all `defaultRetryCount = 3`
attempts before returning it — notFound is retried exactly like the other
error classes. -/
theorem c1_counterexample :
    httpGet defaultRetryCount c1Oracle = ((none, some .notFound), 3) ∧
    httpGet defaultRetryCount c1Oracle ≠ ((none, some .notFound), 1) := by
  constructor
  · rfl
  · decide

/-- C1 (amended): `HTTPClient.Get` distinguishes no error classes:
every failing attempt — notFound, badStatus and transportFailure alike —
is retried until the attempt count is exhausted, after which the error of
the final attempt is returned, having performed exactly `tryCount`
attempts. -/
theorem c1_get_retries_every_error (tryCount : Nat) (errs : Nat → GetErr)
    (oracle : Nat → GetOutcome) (h1 : 1 ≤ tryCount)
    (h : ∀ k, k < tryCount → oracle k = .error (errs k)) :
    httpGet tryCount oracle =
      ((none, some (errs (tryCount - 1))), tryCount) := by
  unfold httpGet
  rw [httpGetLoop_all_fail oracle errs tryCount 0 none h1
    (fun k _ hk2 => h k (by omega))]
  rw [Nat.zero_add]

/-- C1 witness: the amended theorem applied to the all-404 oracle at the
production attempt count. -/
theorem c1_get_retries_every_error_witness :
    httpGet 3 c1Oracle = ((none, some .notFound), 3) :=
  c1_get_retries_every_error 3 (fun _ => .notFound) c1Oracle (by decide)
    (fun _ _ => rfl)

/-! ## C3: gallery stop rule on the three-page example -/

/-- C3: on pages `[103,104]`, `[55555]`, `[]` with 104 already archived,
the non-reCrawl crawl yields exactly `[103]` having fetched only page 1
(so 55555 is never seen), and the reCrawl crawl yields `[55555,104,103]`
having fetched pages 1, 2 and 3. -/
theorem c3_gallery_stop_rule :
    crawlSubmissions c3Pages false c3Archived = (.ok [103], [1]) ∧
    crawlSubmissions c3Pages true c3Archived =
      (.ok [55555, 104, 103], [1, 2, 3]) := by
  constructor
  · rfl
  · rfl

/-! ## C5: follow-list pagination -/

/-- C5 counterexample: watchlist pages that keep contributing two fresh
usernames on every page.  The claim, read over every sequence of pages,
says the crawler returns the deduplicated ids; here no page within the
100-page ceiling contributes fewer than 2 new ids, so `GetWatchlist`
takes the fatal panic path instead of returning anything. -/
theorem c5_counterexample :
    getWatchlist (fun p => .ok (growWatchPages p)) =
      (.fatal ("maximum watchlist pages exceeded"), List.range' 1 100) := by
  unfold getWatchlist
  rw [getWatchlistLoop_fatal growWatchPages (maxWatchlistPages + 1) 1 [] [] []
    (by omega) (by omega) (by rfl) (fun u => Iff.rfl)
    (fun p hp1 _ => by rw [growWatchPages_newAt p hp1]; decide)]
  rfl

/-- C5 (amended): whenever some page within the 100-page ceiling
contributes fewer than 2 new ids — `k` being the first such page —
`GetWatchlist` returns the globally deduplicated creator ids of pages
`1..k` in first-seen order and fetches exactly pages `1..k`, never any
page past the growth-drop page.  (Without such a page the ceiling's
fatal abort is taken instead; see the counterexample.) -/
theorem c5_watchlist_stop (pl : Nat → List String) (k : Nat)
    (h1 : 1 ≤ k) (h2 : k ≤ maxWatchlistPages)
    (hgrow : ∀ p, 1 ≤ p → p < k → minNewUsernamesThreshold ≤ watchNewAt pl p)
    (hdrop : watchNewAt pl k < minNewUsernamesThreshold) :
    getWatchlist (fun p => .ok (pl p)) =
      (.ok (watchDedupUpTo pl k), List.range' 1 k) := by
  unfold getWatchlist
  rw [getWatchlistLoop_stops pl k h2 hdrop (maxWatchlistPages + 1) 1 [] [] []
    (by omega) (by omega) h1 (by rfl) (fun u => Iff.rfl)
    (fun p hp1 hp2 => hgrow p hp1 hp2)]
  rfl

/-- C5 witness: pages adding two new ids through page 4, then repeating
page 4's entries: the crawl returns the dedup of pages 1..5 and fetches
exactly pages 1..5. -/
theorem c5_watchlist_stop_witness :
    getWatchlist (fun p => .ok (dropWatchPages p)) =
      (.ok (watchDedupUpTo dropWatchPages 5), List.range' 1 5) :=
  c5_watchlist_stop dropWatchPages 5 (by decide) (by decide)
    (fun p hp1 hp2 => by interval_cases p <;> decide)
    (by decide)

/-! ## C6: page ceilings are fatal and never overrun -/

/-- C6: when the pages keep growing without triggering either stop rule,
both crawlers take the fatal panic path exactly at their ceilings: the
watchlist crawl aborts having fetched exactly pages 1..100 and the
gallery crawl having fetched exactly pages 1..1000 — page ceiling+1 is
never fetched. -/
theorem c6_ceiling_enforced
    (wpl : Nat → List String)
    (gpages : Nat → Except GetErr (List Nat)) (gids : Nat → List Nat)
    (reCrawl : Bool) (archived : Nat → Bool)
    (hw : ∀ p, 1 ≤ p → p ≤ maxWatchlistPages →
      minNewUsernamesThreshold ≤ watchNewAt wpl p)
    (hg : ∀ p, 1 ≤ p → p ≤ maxGalleryPages →
      gpages p = .ok (gids p) ∧ gids p ≠ [] ∧
      (∀ id ∈ gids p, reCrawl = true ∨ archived id = false)) :
    getWatchlist (fun p => .ok (wpl p)) =
      (.fatal ("maximum watchlist pages exceeded"),
        List.range' 1 maxWatchlistPages) ∧
    crawlSubmissions gpages reCrawl archived =
      (.fatal ("maximum gallery pages exceeded"),
        List.range' 1 maxGalleryPages) := by
  constructor
  · unfold getWatchlist
    rw [getWatchlistLoop_fatal wpl (maxWatchlistPages + 1) 1 [] [] []
      (by omega) (by omega) (by rfl) (fun u => Iff.rfl)
      (fun p hp1 hp2 => hw p hp1 hp2)]
    rfl
  · unfold crawlSubmissions
    rw [crawlSubmissionsLoop_fatal gpages gids reCrawl archived hg
      (maxGalleryPages + 1) 1 [] [] (by omega) (by omega)]
    rfl

/-- C6 witness: ever-growing watchlist pages and ever-growing,
never-archived gallery pages. -/
theorem c6_ceiling_enforced_witness :
    getWatchlist (fun p => .ok (growWatchPages p)) =
      (.fatal ("maximum watchlist pages exceeded"), List.range' 1 100) ∧
    crawlSubmissions (fun p => .ok (growGalleryIds p)) false (fun _ => false) =
      (.fatal ("maximum gallery pages exceeded"), List.range' 1 1000) :=
  c6_ceiling_enforced growWatchPages (fun p => .ok (growGalleryIds p))
    growGalleryIds false (fun _ => false)
    (fun p hp1 _ => by rw [growWatchPages_newAt p hp1]; decide)
    (fun p _ _ => ⟨rfl, by simp [growGalleryIds], fun id _ => Or.inr rfl⟩)

/-! ## C8: cookie record validation -/

/-- C8: cookie loading skips blank and `#`-comment lines without error;
a record with a tab-separated field count other than 7 is rejected
carrying the line; given the seven fields, a non-integer expiry is
rejected with an error naming the cookie, an expiry under one week from
now is rejected with an error naming the cookie, a record at least one
week out whose URL `net/url` rejects is rejected naming the cookie, and
one whose URL parses is accepted into the jar with its fields. -/
theorem c8_cookie_rejection (urlParse : String → Option String) (now : Int)
    (line : String) :
    ((line = "" ∨ startsWithHash line = true) →
      parseCookieLine urlParse now line = .ok none) ∧
    (line ≠ "" → startsWithHash line = false →
      ((stringsSplit '\t' line).length ≠ 7 →
        parseCookieLine urlParse now line = .error (.invalidCookie line)) ∧
      (∀ domain flag path sec exp nm vl : String,
        stringsSplit '\t' line = [domain, flag, path, sec, exp, nm, vl] →
        (parseInt64? exp = none →
          parseCookieLine urlParse now line =
            .error (.invalidExpiration nm)) ∧
        (∀ e : Int, parseInt64? exp = some e → e < now + oneWeekSeconds →
          parseCookieLine urlParse now line = .error (.expiredCookie nm)) ∧
        (∀ e : Int, ∀ msg : String, parseInt64? exp = some e →
          now + oneWeekSeconds ≤ e →
          urlParse ((if asciiToUpper sec = "TRUE" then ("https")
              else ("http")) ++ "://" ++ domain ++ path) = some msg →
          parseCookieLine urlParse now line =
            .error (.invalidURL nm msg)) ∧
        (∀ e : Int, parseInt64? exp = some e → now + oneWeekSeconds ≤ e →
          urlParse ((if asciiToUpper sec = "TRUE" then ("https")
              else ("http")) ++ "://" ++ domain ++ path) = none →
          parseCookieLine urlParse now line = .ok (some
            { url := (if asciiToUpper sec = "TRUE" then ("https")
                  else ("http")) ++ "://" ++ domain ++ path
              name := nm, value := vl, domain := domain,
              path := path })))) := by
  constructor
  · intro h
    rw [parseCookieLine, if_pos]
    rcases h with h | h
    · exact Or.inl h
    · exact Or.inr h
  · intro hne hnh
    have hcond : ¬ (line = "" ∨ startsWithHash line = true) := by
      rintro (h | h)
      · exact hne h
      · rw [hnh] at h
        cases h
    constructor
    · intro hcount
      simp only [parseCookieLine]
      rw [if_neg hcond, if_pos hcount]
    · intro domain flag path sec exp nm vl hsplit
      refine ⟨?_, ?_, ?_, ?_⟩
      · intro hp
        simp only [parseCookieLine, hsplit]
        rw [if_neg hcond]
        simp [hp]
      · intro e hp hlt
        simp only [parseCookieLine, hsplit]
        rw [if_neg hcond]
        simp [hp, hlt]
      · intro e msg hp hge hu
        have hnlt : ¬ (e < now + oneWeekSeconds) := not_lt.2 hge
        simp only [parseCookieLine, hsplit]
        rw [if_neg hcond]
        simp [hp, hnlt, hu]
      · intro e hp hge hu
        have hnlt : ¬ (e < now + oneWeekSeconds) := not_lt.2 hge
        simp only [parseCookieLine, hsplit]
        rw [if_neg hcond]
        simp [hp, hnlt, hu]

/-- C8 witness: the theorem applied to six concrete lines at the
reference time 1760000000: a far-future record whose URL parses is
accepted with its fields, a far-future record whose host `net/url`
rejects is rejected naming the cookie, an expiring record and a
non-integer expiry are rejected naming the cookie, a wrong field count
is rejected carrying the line, and the header comment is skipped. -/
theorem c8_cookie_rejection_witness :
    parseCookieLine c8UrlAccept 1760000000 c8GoodLine =
      .ok (some { url := "https://.furaffinity.net/", name := "test_cookie",
                  value := "test_value", domain := ".furaffinity.net",
                  path := "/" }) ∧
    parseCookieLine c8UrlReject 1760000000 c8SpaceHostLine =
      .error (.invalidURL ("space_cookie")
        ("invalid character in host name")) ∧
    parseCookieLine c8UrlAccept 1760000000 c8ExpiringLine =
      .error (.expiredCookie ("expiring_cookie")) ∧
    parseCookieLine c8UrlAccept 1760000000 c8BadExpiryLine =
      .error (.invalidExpiration ("nan_cookie")) ∧
    parseCookieLine c8UrlAccept 1760000000 c8BadCountLine =
      .error (.invalidCookie c8BadCountLine) ∧
    parseCookieLine c8UrlAccept 1760000000 c8CommentLine = .ok none := by
  refine ⟨?_, ?_, ?_, ?_, ?_, ?_⟩
  · exact (((c8_cookie_rejection c8UrlAccept 1760000000 c8GoodLine).2
      (by decide) (by decide)).2 (".furaffinity.net") ("TRUE") ("/") ("TRUE")
      ("4070937600") ("test_cookie") ("test_value") (by decide)).2.2.2
      4070937600 (by decide) (by decide) (by decide) |>.trans (by decide)
  · exact (((c8_cookie_rejection c8UrlReject 1760000000 c8SpaceHostLine).2
      (by decide) (by decide)).2 ("bad host.com") ("TRUE") ("/") ("TRUE")
      ("4070937600") ("space_cookie") ("space_value") (by decide)).2.2.1
      4070937600 ("invalid character in host name") (by decide) (by decide)
      rfl
  · exact (((c8_cookie_rejection c8UrlAccept 1760000000 c8ExpiringLine).2
      (by decide) (by decide)).2 (".furaffinity.net") ("TRUE") ("/") ("TRUE")
      ("1760100000") ("expiring_cookie") ("expiring_value") (by decide)).2.1
      1760100000 (by decide) (by decide)
  · exact (((c8_cookie_rejection c8UrlAccept 1760000000 c8BadExpiryLine).2
      (by decide) (by decide)).2 (".furaffinity.net") ("TRUE") ("/") ("TRUE")
      ("notanumber") ("nan_cookie") ("v") (by decide)).1 (by decide)
  · exact ((c8_cookie_rejection c8UrlAccept 1760000000 c8BadCountLine).2
      (by decide) (by decide)).1 (by decide)
  · exact (c8_cookie_rejection c8UrlAccept 1760000000 c8CommentLine).1
      (Or.inr (by decide))

/-! ## C10: LoadCookies is not atomic on error -/

/-- C10: when some line fails to parse, `LoadCookies` stops at that line
and returns its error, but the jar already holds every cookie added
while processing the preceding lines — exactly the jar state reached
after the error-free prefix — and is not rolled back. -/
theorem c10_loadCookies_not_atomic (urlParse : String → Option String)
    (now : Int) (pre : List String)
    (bad : String) (rest : List String) (jar jarPre : List JarEntry)
    (e : CookieErr)
    (hpre : loadCookies urlParse now pre jar = (jarPre, none))
    (hbad : parseCookieLine urlParse now (trimSpace bad) = .error e) :
    loadCookies urlParse now (pre ++ bad :: rest) jar = (jarPre, some e) := by
  induction pre generalizing jar with
  | nil =>
    have h0 : (jar, (none : Option CookieErr)) = (jarPre, none) := by
      rw [loadCookies] at hpre
      exact hpre
    have hj : jar = jarPre := congrArg Prod.fst h0
    subst hj
    rw [List.nil_append, loadCookies, hbad]
  | cons l ls ih =>
    rw [List.cons_append, loadCookies]
    rw [loadCookies] at hpre
    rcases hp : parseCookieLine urlParse now (trimSpace l) with he | ho
    · rw [hp] at hpre
      change (jar, some he) = (jarPre, none) at hpre
      exact absurd (congrArg Prod.snd hpre) (by simp)
    · rcases ho with _ | entry
      · rw [hp] at hpre
        change loadCookies urlParse now ls jar = (jarPre, none) at hpre
        change loadCookies urlParse now (ls ++ bad :: rest) jar =
          (jarPre, some e)
        exact ih jar hpre
      · rw [hp] at hpre
        change loadCookies urlParse now ls (jar ++ [entry]) =
          (jarPre, none) at hpre
        change loadCookies urlParse now (ls ++ bad :: rest) (jar ++ [entry]) =
          (jarPre, some e)
        exact ih (jar ++ [entry]) hpre

/-- C10 witness: two valid records followed by an expiring one: the
error names the expiring cookie and the two valid cookies are in the
returned jar. -/
theorem c10_loadCookies_not_atomic_witness :
    loadCookies c8UrlAccept 1760000000
      [c8GoodLine, c10SecondLine, c8ExpiringLine] [] =
      ([{ url := "https://.furaffinity.net/", name := "test_cookie",
          value := "test_value", domain := ".furaffinity.net", path := "/" },
        { url := "http://.furaffinity.net/path", name := "another_cookie",
          value := "another_value", domain := ".furaffinity.net",
          path := "/path" }],
        some (.expiredCookie ("expiring_cookie"))) :=
  c10_loadCookies_not_atomic c8UrlAccept 1760000000
    [c8GoodLine, c10SecondLine]
    c8ExpiringLine [] [] _ _ (by decide) (by decide)

/-! ## Filesystem lemmas for the save protocol -/

theorem fsGet_fsSet_self (fs : FileSys) (n : FName) (d : List Nat) :
    fsGet (fsSet fs n d) n = some d := by
  induction fs with
  | nil => simp [fsSet, fsGet]
  | cons p rest ih =>
    obtain ⟨m, c⟩ := p
    by_cases h : m = n
    · simp [fsSet, fsGet, h]
    · simp [fsSet, fsGet, h, ih]

theorem fsGet_fsSet_ne (fs : FileSys) (n n' : FName) (d : List Nat)
    (h : ¬ n = n') : fsGet (fsSet fs n d) n' = fsGet fs n' := by
  induction fs with
  | nil => simp [fsSet, fsGet, h]
  | cons p rest ih =>
    obtain ⟨m, c⟩ := p
    by_cases hm : m = n
    · subst hm
      simp [fsSet, fsGet, h]
    · simp [fsSet, fsGet, hm, ih]

theorem fsGet_fsDel_ne (fs : FileSys) (n n' : FName)
    (h : ¬ n = n') : fsGet (fsDel fs n) n' = fsGet fs n' := by
  induction fs with
  | nil => simp [fsDel]
  | cons p rest ih =>
    obtain ⟨m, c⟩ := p
    by_cases hm : m = n
    · subst hm
      simp [fsDel, fsGet, h, ih]
    · simp [fsDel, fsGet, hm, ih]

theorem isArchived_fsSet (fs : FileSys) (n : FName) (d : List Nat) (id : Nat) :
    isArchived (fsSet fs n d) id =
      ((markerSuffix id).isSuffixOf n || isArchived fs id) := by
  induction fs with
  | nil => simp [fsSet, isArchived]
  | cons p rest ih =>
    obtain ⟨m, c⟩ := p
    by_cases hm : m = n
    · subst hm
      have h1 : fsSet ((m, c) :: rest) m d = (m, d) :: rest := by
        simp [fsSet]
      rw [h1]
      simp only [isArchived, List.any_cons]
      rw [← Bool.or_assoc, Bool.or_self]
    · have h1 : fsSet ((m, c) :: rest) n d = (m, c) :: fsSet rest n d := by
        simp [fsSet, hm]
      rw [h1]
      simp only [isArchived, List.any_cons] at ih ⊢
      rw [ih, ← Bool.or_assoc,
        Bool.or_comm (List.isSuffixOf (markerSuffix id) m), Bool.or_assoc]

theorem markerSuffix_eq (id : Nat) :
    markerSuffix id = ('.' :: (Nat.repr id).data) ++ ".html".data := rfl

theorem markerSuffix_getLast? (id : Nat) :
    (markerSuffix id).getLast? = some 'l' := by
  rw [markerSuffix_eq, List.getLast?_append_of_ne_nil _ (by decide)]
  rfl

theorem markerSuffix_isSuffixOf_htmlName (f : FName) (id : Nat) :
    (markerSuffix id).isSuffixOf (htmlName f id) = true := by
  simp only [htmlName]
  simp

theorem markerSuffix_not_isSuffixOf_tmpName (f : FName) (id : Nat) :
    (markerSuffix id).isSuffixOf (tmpName f id) = false := by
  cases hb : List.isSuffixOf (markerSuffix id) (tmpName f id) with
  | false => rfl
  | true =>
  exfalso
  have hsuf : markerSuffix id <:+ tmpName f id := by simpa using hb
  obtain ⟨t, ht⟩ := hsuf
  have hlast : (tmpName f id).getLast? = (markerSuffix id).getLast? := by
    rw [← ht, List.getLast?_append_of_ne_nil _ (by simp [markerSuffix_eq])]
  rw [markerSuffix_getLast?] at hlast
  have htmp : (tmpName f id).getLast? = some 'p' := by
    rw [tmpName, List.getLast?_append_of_ne_nil _ (by decide)]
    rfl
  rw [htmp] at hlast
  cases hlast

theorem append_ne_left {l m : List Char} (h : m ≠ []) : l ++ m ≠ l := by
  intro hh
  have := congrArg List.length hh
  simp only [List.length_append] at this
  have hm : m.length = 0 := by omega
  exact h (List.length_eq_zero.1 hm)

theorem htmlName_ne_filename (f : FName) (id : Nat) :
    ¬ htmlName f id = f := by
  simp only [htmlName]
  exact append_ne_left (by simp [markerSuffix_eq])

theorem tmpName_ne_filename (f : FName) (id : Nat) :
    ¬ tmpName f id = f := by
  simp only [tmpName, htmlName, List.append_assoc]
  exact append_ne_left (by simp [markerSuffix_eq])

theorem tmpName_ne_htmlName (f : FName) (id : Nat) :
    ¬ tmpName f id = htmlName f id := by
  simp only [tmpName]
  exact append_ne_left (by decide)

/-! ## C2: crash safety of the save protocol -/

/-- C2 counterexample: a detail page whose download filename itself ends
in `.104.html`, saved as submission 104.  Executing only the first
operation of `saveSubmissionFiles` — `os.Create` of the binary — already
makes `isArchived` true (the binary file matches the `*.104.html` glob)
while the binary is empty (partial) and the metadata file is absent: the
rename is not the only action that can set the marker, and a reachable
state has the marker with a partial payload and no metadata. -/
theorem c2_counterexample :
    parseView c2Links =
      .ok ("https://d.example.net/x.104.html".data, "x.104.html".data) ∧
    isArchived (runFsOps []
      (List.take 1 (saveFilesOps ("x.104.html".data) 104 [1] [7]))) 104 =
      true ∧
    fsGet (runFsOps []
        (List.take 1 (saveFilesOps ("x.104.html".data) 104 [1] [7])))
      ("x.104.html".data) = some [] ∧
    fsGet (runFsOps []
        (List.take 1 (saveFilesOps ("x.104.html".data) 104 [1] [7])))
      (htmlName ("x.104.html".data) 104) = none := by
  refine ⟨?_, ?_, ?_, ?_⟩
  · decide
  · decide
  · decide
  · decide

/-- C2 (amended): provided the binary's filename does not itself match
the `*.<id>.html` marker glob and the artifact is not yet archived, the
`saveSubmissionFiles` operation sequence keeps the crash-safety
invariant: interrupting after any prefix of fewer than all 7 operations
leaves `isArchived` false, and once the final rename has run (the only
operation that flips it) the marker is set and both the binary and the
metadata are fully present. -/
theorem c2_crash_safety (fs0 : FileSys) (filename : FName) (id : Nat)
    (fileContent pageContent : List Nat)
    (hfn : (markerSuffix id).isSuffixOf filename = false)
    (h0 : isArchived fs0 id = false) (n : Nat) :
    (n < 7 → isArchived (runFsOps fs0
      (List.take n (saveFilesOps filename id fileContent pageContent))) id =
      false) ∧
    (7 ≤ n →
      isArchived (runFsOps fs0
        (List.take n (saveFilesOps filename id fileContent pageContent))) id =
        true ∧
      fsGet (runFsOps fs0
          (List.take n (saveFilesOps filename id fileContent pageContent)))
        filename = some fileContent ∧
      fsGet (runFsOps fs0
          (List.take n (saveFilesOps filename id fileContent pageContent)))
        (htmlName filename id) = some pageContent) := by
  have htmp := markerSuffix_not_isSuffixOf_tmpName filename id
  have hops : ∀ m : Nat, List.take (m + 7)
      (saveFilesOps filename id fileContent pageContent) =
      saveFilesOps filename id fileContent pageContent :=
    fun m => List.take_of_length_le (by simp [saveFilesOps])
  have hfull : runFsOps fs0 (saveFilesOps filename id fileContent pageContent) =
      fsSet (fsDel (fsSet (fsSet (fsSet (fsSet fs0 filename [])
        filename fileContent) (tmpName filename id) [])
        (tmpName filename id) pageContent) (tmpName filename id))
        (htmlName filename id) pageContent := by
    simp only [runFsOps, saveFilesOps, List.foldl_cons, List.foldl_nil,
      fsApplyOp]
    rw [fsGet_fsSet_self]
  rcases n with _ | _ | _ | _ | _ | _ | _ | n
  · exact ⟨fun _ => by simpa using h0, fun h => by omega⟩
  · refine ⟨fun _ => ?_, fun h => by omega⟩
    simp [runFsOps, saveFilesOps, fsApplyOp, isArchived_fsSet, hfn, h0]
  · refine ⟨fun _ => ?_, fun h => by omega⟩
    simp [runFsOps, saveFilesOps, fsApplyOp, isArchived_fsSet, hfn, h0]
  · refine ⟨fun _ => ?_, fun h => by omega⟩
    simp [runFsOps, saveFilesOps, fsApplyOp, isArchived_fsSet, hfn, h0]
  · refine ⟨fun _ => ?_, fun h => by omega⟩
    simp [runFsOps, saveFilesOps, fsApplyOp, isArchived_fsSet, hfn, h0, htmp]
  · refine ⟨fun _ => ?_, fun h => by omega⟩
    simp [runFsOps, saveFilesOps, fsApplyOp, isArchived_fsSet, hfn, h0, htmp]
  · refine ⟨fun _ => ?_, fun h => by omega⟩
    simp [runFsOps, saveFilesOps, fsApplyOp, isArchived_fsSet, hfn, h0, htmp]
  · refine ⟨fun h => by omega, fun _ => ?_⟩
    rw [hops n, hfull]
    refine ⟨?_, ?_, ?_⟩
    · rw [isArchived_fsSet, markerSuffix_isSuffixOf_htmlName]
      rfl
    · rw [fsGet_fsSet_ne _ _ _ _
        (fun hh => htmlName_ne_filename filename id hh),
        fsGet_fsDel_ne _ _ _ (fun hh => tmpName_ne_filename filename id hh),
        fsGet_fsSet_ne _ _ _ _ (fun hh => tmpName_ne_filename filename id hh),
        fsGet_fsSet_ne _ _ _ _ (fun hh => tmpName_ne_filename filename id hh),
        fsGet_fsSet_self]
    · rw [fsGet_fsSet_self]

/-- C2 witness: the amended invariant at an ordinary filename, checked
after the prefix of length 3 (binary written and fsynced, metadata not
yet started) and after the full sequence. -/
theorem c2_crash_safety_witness :
    isArchived (runFsOps []
      (List.take 3 (saveFilesOps ("img.jpg".data) 7 [1, 2] [9]))) 7 =
      false ∧
    isArchived (runFsOps []
      (List.take 7 (saveFilesOps ("img.jpg".data) 7 [1, 2] [9]))) 7 =
      true ∧
    fsGet (runFsOps [] (List.take 7 (saveFilesOps ("img.jpg".data) 7 [1, 2] [9])))
      ("img.jpg".data) = some [1, 2] ∧
    fsGet (runFsOps [] (List.take 7 (saveFilesOps ("img.jpg".data) 7 [1, 2] [9])))
      (htmlName ("img.jpg".data) 7) = some [9] :=
  ⟨(c2_crash_safety [] ("img.jpg".data) 7 [1, 2] [9] (by decide) (by decide)
      3).1 (by decide),
   (c2_crash_safety [] ("img.jpg".data) 7 [1, 2] [9] (by decide) (by decide)
      7).2 (by decide)⟩

/-! ## Unfolding lemmas for Save -/

theorem save_archived (id : Nat) (fs : FileSys)
    (vf : Except DelayErr ViewPage) (ff : Except GetErr (List Nat))
    (h : isArchived fs id = true) :
    save id fs vf ff = (.ok (), fs, []) := by
  unfold save
  rw [if_pos h]

theorem save_notFound (id : Nat) (fs : FileSys) (page : ViewPage)
    (url filename : FName)
    (h0 : isArchived fs id = false)
    (hparse : parseView page.links = .ok (url, filename)) :
    save id fs (.ok page) (.error .notFound) =
      (.ok (), fs, [.mkdir, .getWithDelay, .get]) := by
  unfold save
  rw [if_neg (by rw [h0]; exact Bool.false_ne_true)]
  simp only [hparse]

theorem save_downloadErr (id : Nat) (fs : FileSys) (page : ViewPage)
    (url filename : FName) (e : GetErr)
    (h0 : isArchived fs id = false) (he : e ≠ .notFound)
    (hparse : parseView page.links = .ok (url, filename)) :
    save id fs (.ok page) (.error e) =
      (.error (.download e), fs, [.mkdir, .getWithDelay, .get]) := by
  unfold save
  rw [if_neg (by rw [h0]; exact Bool.false_ne_true)]
  cases e with
  | notFound => exact absurd rfl he
  | badStatus => simp only [hparse]
  | transportFailure => simp only [hparse]

theorem save_full (id : Nat) (fs : FileSys) (page : ViewPage)
    (url filename : FName) (fileContent : List Nat)
    (h0 : isArchived fs id = false)
    (hparse : parseView page.links = .ok (url, filename)) :
    save id fs (.ok page) (.ok fileContent) =
      (.ok (), runFsOps fs (saveFilesOps filename id fileContent page.raw),
        [.mkdir, .getWithDelay, .get] ++
          (saveFilesOps filename id fileContent page.raw).map .fsOp) := by
  unfold save
  rw [if_neg (by rw [h0]; exact Bool.false_ne_true)]
  simp only [hparse]

theorem isArchived_after_full_save (fs : FileSys) (filename : FName)
    (id : Nat) (fileContent pageContent : List Nat) :
    isArchived (runFsOps fs (saveFilesOps filename id fileContent
      pageContent)) id = true := by
  simp only [runFsOps, saveFilesOps, List.foldl_cons, List.foldl_nil,
    fsApplyOp]
  rw [fsGet_fsSet_self, isArchived_fsSet, markerSuffix_isSuffixOf_htmlName]
  rfl

/-! ## C4: idempotence of Save -/

/-- C4 counterexample: an unarchived artifact whose view page is fine
but whose binary fetch 404s.  `Save` returns success while archiving
nothing, so calling it again with no intervening state change repeats
the directory creation and both network fetches: the second call is not
a pure no-op and the download work is re-attempted. -/
theorem c4_counterexample :
    save 5 [] (.ok c4ViewPage) (.error .notFound) =
      (.ok (), [], [.mkdir, .getWithDelay, .get]) ∧
    (save 5 (save 5 [] (.ok c4ViewPage) (.error .notFound)).2.1
        (.ok c4ViewPage) (.error .notFound)).2.2 ≠ ([] : List Effect) := by
  refine ⟨?_, ?_⟩
  · decide
  · decide

/-- C4 (amended): when the artifact is already archived, `Save` returns
success immediately, leaving the directory untouched and performing no
network fetch or filesystem operation.  When a first call actually
archives the artifact (its binary fetch succeeds), any second call — on
any network oracle — is a pure no-op.  (When the first call skips on an
asset 404 the artifact stays unarchived and a second call repeats the
fetches; see the counterexample.) -/
theorem c4_save_idempotent (id : Nat) (fs : FileSys)
    (vf vf' : Except DelayErr ViewPage) (ff ff' : Except GetErr (List Nat))
    (page : ViewPage) (url filename : FName) (fileContent : List Nat) :
    (isArchived fs id = true → save id fs vf ff = (.ok (), fs, [])) ∧
    (vf = .ok page → parseView page.links = .ok (url, filename) →
      ff = .ok fileContent →
      isArchived (save id fs vf ff).2.1 id = true ∧
      save id (save id fs vf ff).2.1 vf' ff' =
        (.ok (), (save id fs vf ff).2.1, [])) := by
  constructor
  · intro h
    exact save_archived id fs vf ff h
  · intro hvf hparse hff
    subst hvf
    subst hff
    have harch : isArchived (save id fs (.ok page)
        (.ok fileContent)).2.1 id = true := by
      by_cases h : isArchived fs id = true
      · rw [save_archived id fs _ _ h]
        exact h
      · have hfalse : isArchived fs id = false := by
          cases hb : isArchived fs id
          · rfl
          · exact absurd hb h
        rw [save_full id fs page url filename fileContent hfalse hparse]
        exact isArchived_after_full_save fs filename id fileContent page.raw
    exact ⟨harch, save_archived id _ vf' ff' harch⟩

/-- C4 witness: a successful first save of submission 5; the second
call succeeds with no effects even against a failing network oracle. -/
theorem c4_save_idempotent_witness :
    isArchived (save 5 [] (.ok c4ViewPage) (.ok [9])).2.1 5 = true ∧
    save 5 (save 5 [] (.ok c4ViewPage) (.ok [9])).2.1
      (.error (.get .badStatus)) (.error .badStatus) =
      (.ok (), (save 5 [] (.ok c4ViewPage) (.ok [9])).2.1, []) :=
  (c4_save_idempotent 5 [] (.ok c4ViewPage) (.error (.get .badStatus))
    (.ok [9]) (.error .badStatus) c4ViewPage
    ("https://d.example.net/pic.jpg".data) ("pic.jpg".data) [9]).2
    rfl (by decide) rfl

/-! ## C7: asset 404 is success-with-no-write -/

/-- C7: for an unarchived artifact whose view page parses to a download
link, a notFound result on the binary fetch makes `Save` return success
with the directory unchanged and no filesystem operation among its
effects; any other binary-fetch error is propagated as a failure of
`Save` (also with nothing written); and in the per-artifact loop of
`Scraper.Run` the 404 case continues with the remaining artifacts. -/
theorem c7_asset_404 (id : Nat) (fs : FileSys) (page : ViewPage)
    (url filename : FName)
    (rest : List (Nat × Except DelayErr ViewPage × Except GetErr (List Nat)))
    (h0 : isArchived fs id = false)
    (hparse : parseView page.links = .ok (url, filename)) :
    save id fs (.ok page) (.error .notFound) =
      (.ok (), fs, [.mkdir, .getWithDelay, .get]) ∧
    (∀ e : GetErr, e ≠ .notFound →
      save id fs (.ok page) (.error e) =
        (.error (.download e), fs, [.mkdir, .getWithDelay, .get])) ∧
    saveAll ((id, .ok page, .error .notFound) :: rest) fs =
      saveAll rest fs := by
  have h404 := save_notFound id fs page url filename h0 hparse
  refine ⟨h404, ?_, ?_⟩
  · intro e he
    exact save_downloadErr id fs page url filename e h0 he hparse
  · rw [saveAll, h404]

/-- C7 witness: submission 5 with a well-formed Download link whose
target 404s, followed by an empty worklist. -/
theorem c7_asset_404_witness :
    save 5 [] (.ok c4ViewPage) (.error .notFound) =
      (.ok (), [], [.mkdir, .getWithDelay, .get]) ∧
    (∀ e : GetErr, e ≠ .notFound →
      save 5 [] (.ok c4ViewPage) (.error e) =
        (.error (.download e), [], [.mkdir, .getWithDelay, .get])) ∧
    saveAll [(5, .ok c4ViewPage, .error .notFound)] [] = saveAll [] [] :=
  c7_asset_404 5 [] c4ViewPage ("https://d.example.net/pic.jpg".data)
    ("pic.jpg".data) [] (by decide) (by decide)

/-! ## Splitting and path-normalization lemmas -/

theorem splitOnChar_cons (sep c : Char) (rest : List Char) :
    splitOnChar sep (c :: rest) =
      if c = sep then [] :: splitOnChar sep rest
      else
        match splitOnChar sep rest with
        | [] => [[c]]
        | a :: as => (c :: a) :: as := rfl

theorem splitOnChar_ne_nil (sep : Char) (l : List Char) :
    splitOnChar sep l ≠ [] := by
  cases l with
  | nil => simp [splitOnChar]
  | cons c rest =>
    rw [splitOnChar_cons]
    by_cases hc : c = sep
    · rw [if_pos hc]
      simp
    · rw [if_neg hc]
      rcases splitOnChar sep rest with _ | ⟨a, as⟩ <;> simp

theorem not_mem_splitOnChar (sep : Char) (l : List Char) :
    ∀ m ∈ splitOnChar sep l, sep ∉ m := by
  induction l with
  | nil =>
    intro m hm
    simp [splitOnChar] at hm
    simp [hm]
  | cons c rest ih =>
    rw [splitOnChar_cons]
    by_cases hc : c = sep
    · rw [if_pos hc]
      intro m hm
      rcases List.mem_cons.1 hm with rfl | hm
      · simp
      · exact ih m hm
    · rw [if_neg hc]
      rcases hsp : splitOnChar sep rest with _ | ⟨a, as⟩
      · exact absurd hsp (splitOnChar_ne_nil sep rest)
      · intro m hm
        rcases List.mem_cons.1 hm with rfl | hm
        · intro hsep
          rcases List.mem_cons.1 hsep with hzz | hzz
          · exact hc hzz.symm
          · exact ih a (hsp ▸ List.mem_cons_self a as) hzz
        · exact ih m (hsp ▸ List.mem_cons_of_mem a hm)

theorem splitOnChar_append (sep : Char) (xs ys : List Char) :
    splitOnChar sep (xs ++ sep :: ys) =
      splitOnChar sep xs ++ splitOnChar sep ys := by
  induction xs with
  | nil =>
    rw [List.nil_append, splitOnChar_cons, if_pos rfl]
    rfl
  | cons x xs ih =>
    rw [List.cons_append, splitOnChar_cons, splitOnChar_cons sep x xs]
    by_cases hx : x = sep
    · rw [if_pos hx, if_pos hx, ih]
      rfl
    · rw [if_neg hx, if_neg hx, ih]
      rcases hsp : splitOnChar sep xs with _ | ⟨a, as⟩
      · exact absurd hsp (splitOnChar_ne_nil sep xs)
      · rfl

theorem splitOnChar_no_sep (sep : Char) (l : List Char) (h : sep ∉ l) :
    splitOnChar sep l = [l] := by
  induction l with
  | nil => rfl
  | cons c rest ih =>
    rw [splitOnChar_cons,
      if_neg (fun hc => h (by rw [← hc]; exact List.mem_cons_self c rest)),
      ih (fun hm => h (List.mem_cons_of_mem c hm))]

theorem no_sep_getLastD_splitOnChar (sep : Char) (l : List Char) :
    sep ∉ (splitOnChar sep l).getLastD [] := by
  rcases hsp : splitOnChar sep l with _ | ⟨a, as⟩
  · exact absurd hsp (splitOnChar_ne_nil sep l)
  · have hmem : (a :: as).getLastD [] ∈ a :: as := by
      rw [List.getLastD_eq_getLast?, List.getLast?_eq_getLast (a :: as) (by simp)]
      exact List.getLast_mem _
    exact not_mem_splitOnChar sep l _ (hsp ▸ hmem)

theorem no_slash_sanitizeFilename (l : FName) (h : '/' ∉ l) :
    '/' ∉ sanitizeFilename l := by
  intro hmem
  rw [sanitizeFilename, List.mem_map] at hmem
  obtain ⟨c, hc, hfc⟩ := hmem
  by_cases hrep : c = '<' ∨ c = '>' ∨ c = ':' ∨ c = '"' ∨ c = '\\' ∨
      c = '|' ∨ c = '?' ∨ c = '*'
  · rw [if_pos hrep] at hfc
    cases hfc
  · rw [if_neg hrep] at hfc
    exact h (hfc ▸ hc)

theorem parseView_eq_none (links : List ALink)
    (h : findDownloadHref links = none) :
    parseView links = .error .submissionImageNotFound := by
  unfold parseView
  rw [h]

theorem parseView_eq_found (links : List ALink) (href : FName)
    (h : findDownloadHref links = some href) :
    parseView links =
      if (('/' :: '/' :: []).isPrefixOf href) = true then
        .ok ("https:".data ++ href,
          sanitizeFilename
            ((splitOnChar '/' ("https:".data ++ href)).getLastD []))
      else .error (.unexpectedLinkFormat href) := by
  unfold parseView
  rw [h]

theorem parseView_ok (links : List ALink) (url fname : FName)
    (h : parseView links = .ok (url, fname)) :
    ∃ href, findDownloadHref links = some href ∧
      (('/' :: '/' :: []).isPrefixOf href) = true ∧
      url = "https:".data ++ href ∧
      fname = sanitizeFilename ((splitOnChar '/' url).getLastD []) := by
  rcases hf : findDownloadHref links with _ | href
  · rw [parseView_eq_none links hf] at h
    cases h
  · rw [parseView_eq_found links href hf] at h
    by_cases hp : (('/' :: '/' :: []).isPrefixOf href) = true
    · rw [if_pos hp] at h
      injection h with hAB
      have h1 := congrArg Prod.fst hAB
      have h2 := congrArg Prod.snd hAB
      simp only at h1 h2
      subst h1
      exact ⟨href, rfl, hp, rfl, h2.symm⟩
    · have hfalse : (('/' :: '/' :: []).isPrefixOf href) = false := by
        cases hb : (('/' :: '/' :: []).isPrefixOf href)
        · rfl
        · exact absurd hb hp
      rw [if_neg (by rw [hfalse]; exact Bool.false_ne_true)] at h
      cases h

theorem cleanStack_append_single (abs : Bool) (xs : List FName) (f : FName)
    (h1 : f ≠ []) (h2 : f ≠ ['.']) (h3 : f ≠ ['.', '.']) :
    cleanStack abs (xs ++ [f]) = f :: cleanStack abs xs := by
  rw [cleanStack, List.foldl_append, List.foldl_cons, List.foldl_nil]
  rw [cleanStack]
  unfold cleanStep
  rw [if_neg (by rintro (h | h); exacts [h1 h, h2 h]), if_neg h3]

theorem joinComps_append_single :
    ∀ cs : List FName, ∀ c : FName, cs ≠ [] →
      joinComps (cs ++ [c]) = joinComps cs ++ '/' :: c := by
  intro cs
  induction cs with
  | nil => intro c h; exact absurd rfl h
  | cons a as ih =>
    intro c _
    cases as with
    | nil => rfl
    | cons b bs =>
      have ih' := ih c (by simp)
      rw [List.cons_append] at ih' ⊢
      show a ++ '/' :: joinComps ((b :: bs) ++ [c]) =
        (a ++ '/' :: joinComps (b :: bs)) ++ '/' :: c
      rw [List.cons_append, ih']
      simp

theorem isAbsPath_append (d : FName) (x : List Char) (h : d ≠ []) :
    isAbsPath (d ++ x) = isAbsPath d := by
  cases d with
  | nil => exact absurd rfl h
  | cons c cs => rfl

theorem cleanPath_append_component (d f : FName)
    (hd : cleanPath d = d) (hd0 : d ≠ []) (hd1 : d ≠ ['.'])
    (hdl : d.getLast? ≠ some '/')
    (hf : '/' ∉ f) (hf0 : f ≠ []) (hf1 : f ≠ ['.']) (hf2 : f ≠ ['.', '.']) :
    cleanPath (d ++ '/' :: f) = d ++ '/' :: f := by
  have habs : isAbsPath (d ++ '/' :: f) = isAbsPath d := isAbsPath_append d _ hd0
  have hsplit : splitOnChar '/' (d ++ '/' :: f) =
      splitOnChar '/' d ++ [f] := by
    rw [splitOnChar_append, splitOnChar_no_sep '/' f hf]
  simp only [cleanPath] at hd
  by_cases hempty : (if isAbsPath d = true then ['/'] else []) ++
      joinComps (cleanStack (isAbsPath d) (splitOnChar '/' d)).reverse = []
  · rw [if_pos hempty] at hd
    exact absurd hd.symm hd1
  · rw [if_neg hempty] at hd
    have hS : cleanStack (isAbsPath d) (splitOnChar '/' d) ≠ [] := by
      intro hnil
      rw [hnil] at hd hempty
      simp only [List.reverse_nil, joinComps, List.append_nil] at hd hempty
      cases habs2 : isAbsPath d
      · rw [habs2] at hempty
        simp at hempty
      · rw [habs2] at hd
        simp only [if_pos] at hd
        apply hdl
        rw [← hd]
        rfl
    simp only [cleanPath]
    rw [habs, hsplit, cleanStack_append_single _ _ f hf0 hf1 hf2,
      List.reverse_cons,
      joinComps_append_single _ f
        (fun hh => hS (List.reverse_eq_nil_iff.1 hh))]
    have hout : (if isAbsPath d = true then ['/'] else []) ++
        (joinComps (cleanStack (isAbsPath d)
          (splitOnChar '/' d)).reverse ++ '/' :: f) = d ++ '/' :: f := by
      rw [← List.append_assoc, hd]
    rw [hout, if_neg (by simp)]

theorem isDirectlyInside_of_component (dir f : FName) (hf0 : f ≠ [])
    (hf : '/' ∉ f) : isDirectlyInside dir (dir ++ '/' :: f) = true := by
  have h1 : dir ++ '/' :: f = (dir ++ ['/']) ++ f := by simp
  have hpre : (dir ++ ['/']).isPrefixOf (dir ++ '/' :: f) = true := by
    rw [h1]
    simp
  have hdrop : (dir ++ '/' :: f).drop (dir.length + 1) = f := by
    rw [h1]
    have h2 : dir.length + 1 = (dir ++ ['/']).length := by simp
    rw [h2, List.drop_left]
  rw [isDirectlyInside, hpre, hdrop]
  simp [hf0, hf]

/-! ## C9: download filenames cannot escape the submission directory -/

/-- C9 counterexample: a detail page whose Download href is `//h/..`.
The parser accepts it and produces the filename `..`; joined with the
submission directory `out/a` the target path is `out` — the parent, not
a path directly inside the directory — and the canonical-path check of
`WriteAndFsyncFile` accepts it, because `filepath.Join` has already
cleaned the path. -/
theorem c9_counterexample :
    parseView c9Links = .ok ("https://h/..".data, "..".data) ∧
    joinPath c9Dir ("..".data) = "out".data ∧
    writePathOk (joinPath c9Dir ("..".data)) = true ∧
    isDirectlyInside c9Dir (joinPath c9Dir ("..".data)) = false := by
  refine ⟨?_, ?_, ?_, ?_⟩ <;> decide

/-- C9 (amended): every filename the download-link parser produces is
the sanitized final `/`-segment of the resolved URL and contains no path
separator; and whenever that filename is not one of the degenerate
components `""`, `.` or `..`, joining it to a normalized submission
directory yields exactly `dir/filename` — a path directly inside the
directory — which the canonical-path check accepts.  (For the degenerate
filenames the joined path collapses to the directory itself or its
parent; see the counterexample.) -/
theorem c9_save_paths (links : List ALink) (url fname dir : FName)
    (hparse : parseView links = .ok (url, fname)) :
    '/' ∉ fname ∧
    fname = sanitizeFilename ((splitOnChar '/' url).getLastD []) ∧
    (cleanPath dir = dir → dir ≠ [] → dir ≠ ['.'] →
      dir.getLast? ≠ some '/' →
      fname ≠ [] → fname ≠ ['.'] → fname ≠ ['.', '.'] →
      joinPath dir fname = dir ++ '/' :: fname ∧
      writePathOk (joinPath dir fname) = true ∧
      isDirectlyInside dir (joinPath dir fname) = true) := by
  obtain ⟨href, hf, hp, hurl, hfn⟩ := parseView_ok links url fname hparse
  have hnos : '/' ∉ fname := by
    rw [hfn]
    exact no_slash_sanitizeFilename _ (no_sep_getLastD_splitOnChar '/' url)
  refine ⟨hnos, hfn, ?_⟩
  intro hd hd0 hd1 hdl hf0 hf1 hf2
  have hclean := cleanPath_append_component dir fname hd hd0 hd1 hdl hnos
    hf0 hf1 hf2
  have hjoin : joinPath dir fname = dir ++ '/' :: fname := by
    rw [joinPath, if_neg hd0, if_neg hf0]
    exact hclean
  refine ⟨hjoin, ?_, ?_⟩
  · rw [writePathOk, hjoin, hclean]
    simp
  · rw [hjoin]
    exact isDirectlyInside_of_component dir fname hf0 hnos

/-- C9 witness: the ordinary page (Download href `//d.example.net/pic.jpg`)
against the normalized directory `out/a`: the filename `pic.jpg` has no
separator and the save path is exactly `out/a/pic.jpg`. -/
theorem c9_save_paths_witness :
    '/' ∉ ("pic.jpg".data) ∧
    joinPath ("out/a".data) ("pic.jpg".data) = "out/a/pic.jpg".data ∧
    writePathOk (joinPath ("out/a".data) ("pic.jpg".data)) = true ∧
    isDirectlyInside ("out/a".data)
      (joinPath ("out/a".data) ("pic.jpg".data)) = true := by
  have h := c9_save_paths c4ViewPage.links
    ("https://d.example.net/pic.jpg".data) ("pic.jpg".data) ("out/a".data)
    (by decide)
  obtain ⟨hj, hw, hi⟩ := h.2.2 (by decide) (by decide) (by decide) (by decide)
    (by decide) (by decide) (by decide)
  exact ⟨h.1, hj.trans (by decide), hw, hi⟩
